import Mathlib

/-!
Verification development for the LandVision repository.

The repository ships two artifacts: the amortization-engine specification
(the core component of the system) and the admin HTTP controller
`admin.controller.ts`.  The engine itself is described by the specification
but its implementation file is not part of the inspected sources, so the
engine is modelled here directly from the specification text; the admin
controller is embedded from its TypeScript source.

All monetary quantities are integer minor units (cents), as the rounding
policy of the specification requires.
-/

namespace LandVision

/-- Modelled from the spec: payment frequency enum {MONTHLY, BIWEEKLY, WEEKLY}
of the LoanSpec data model. -/
inductive PaymentFrequency
  | MONTHLY
  | BIWEEKLY
  | WEEKLY
  deriving DecidableEq

/-- Modelled from the spec: rate type enum {FIXED, PRICE_TABLE, SAC} of the
LoanSpec data model. -/
inductive RateType
  | FIXED
  | PRICE_TABLE
  | SAC
  deriving DecidableEq

/-- Modelled from the spec: one extra payment {periodIndex, amount}, the
amount in integer minor units. -/
structure ExtraPayment where
  periodIndex : ℕ
  amount : ℤ
  deriving DecidableEq

/-- Modelled from the spec: the LoanSpec input record.  `principal` is in
integer minor units (cents); `annualRatePercent` is an exact decimal, kept
as a rational. -/
structure LoanSpec where
  principal : ℤ
  annualRatePercent : ℚ
  termMonths : ℕ
  paymentFrequency : PaymentFrequency
  rateType : RateType
  extraPayments : List ExtraPayment
  deriving DecidableEq

/-- Modelled from the spec: an output installment.  All monetary fields are
integer minor units.  Following the design choice documented in the spec,
the extra principal paid at a period is reported in the separate field
`extraPortion` and is not part of `paymentAmount`, keeping the identity
`paymentAmount = principalPortion + interestPortion` intact. -/
structure Installment where
  periodIndex : ℕ
  paymentAmount : ℤ
  principalPortion : ℤ
  interestPortion : ℤ
  extraPortion : ℤ
  remainingBalance : ℤ
  deriving DecidableEq

/-- Modelled from the spec: the AmortizationResult output aggregate with its
summary sums over the installments. -/
structure AmortizationResult where
  installments : List Installment
  totalInterestPaid : ℤ
  totalPaid : ℤ
  deriving DecidableEq

/-- Modelled from the spec: the ValidationError value, carrying the
machine-readable list of field errors (all violations reported together). -/
structure ValidationError where
  fieldErrors : List String
  deriving DecidableEq

/-- Modelled from the spec: periods per year for each payment frequency
(12 / 26 / 52 for MONTHLY / BIWEEKLY / WEEKLY). -/
def periodsPerYear : PaymentFrequency → ℕ
  | PaymentFrequency.MONTHLY => 12
  | PaymentFrequency.BIWEEKLY => 26
  | PaymentFrequency.WEEKLY => 52

/-- Modelled from the spec: the total number of installments determined by
the term in months and the payment frequency. -/
def totalPeriods (s : LoanSpec) : ℕ :=
  s.termMonths * periodsPerYear s.paymentFrequency / 12

/-- Modelled from the spec: round a rational amount to the nearest minor
unit using round-half-up. -/
def roundHalfUp (q : ℚ) : ℤ :=
  ⌊q + 1 / 2⌋

/-- Modelled from the spec: the sum of the extra-payment amounts scheduled
at a given period index (after validation at most one entry matches). -/
def extraAt (xs : List ExtraPayment) (i : ℕ) : ℤ :=
  ((xs.filter (fun e => e.periodIndex == i)).map ExtraPayment.amount).sum

/-- Modelled from the spec: the interest accrued on a balance in one period,
`interestPortion = remainingBalance * periodRate`, rounded half-up to a
minor unit. -/
def interestOf (r : ℚ) (B : ℤ) : ℤ :=
  roundHalfUp ((B : ℚ) * r)

/-- Modelled from the spec: the scheduled principal base of a period before
clamping: for SAC the current constant amortization amount, for
FIXED / PRICE_TABLE the constant installment minus the period interest. -/
def installmentBase (rt : RateType) (A Q interest : ℤ) : ℤ :=
  match rt with
  | RateType.SAC => Q
  | _ => A - interest

/-- Modelled from the spec: the constant installment amount of the
FIXED / PRICE_TABLE (annuity) method,
`A = principal * periodRate / (1 - (1+periodRate)^-n)` when the period rate
is positive, else `A = principal / n`, rounded to a minor unit. -/
def annuity (P : ℤ) (r : ℚ) (n : ℕ) : ℤ :=
  if 0 < r then roundHalfUp ((P : ℚ) * r / (1 - ((1 + r) ^ n)⁻¹))
  else roundHalfUp ((P : ℚ) / (n : ℚ))

/-- Modelled from the spec: one non-final schedule period.  The scheduled
principal portion is clamped to the open balance (never negative, never
exceeding the balance, so that the non-negativity and monotone-balance
invariants of the data model hold); the extra payment applied at the period
reduces the balance after the scheduled principal and is likewise clamped
to what is still owed. -/
def periodInst (rt : RateType) (r : ℚ) (A : ℤ) (xs : List ExtraPayment)
    (i : ℕ) (B Q : ℤ) : Installment :=
  let interest := interestOf r B
  let sched := max 0 (min (installmentBase rt A Q interest) B)
  let e := max 0 (min (extraAt xs i) (B - sched))
  { periodIndex := i
    paymentAmount := sched + interest
    principalPortion := sched
    interestPortion := interest
    extraPortion := e
    remainingBalance := B - sched - e }

/-- Modelled from the spec: the final scheduled installment absorbs any
residual rounding drift, so its principal portion is the whole open balance
and the remaining balance after it is exactly zero. -/
def finalInstallment (r : ℚ) (i : ℕ) (B : ℤ) : Installment :=
  { periodIndex := i
    paymentAmount := B + interestOf r B
    principalPortion := B
    interestPortion := interestOf r B
    extraPortion := 0
    remainingBalance := 0 }

/-- Modelled from the spec: the SAC constant amortization amount is
recomputed as `remainingBalance / periodsRemaining` immediately after any
extra payment; under FIXED / PRICE_TABLE the carried value is unused. -/
def nextQ (rt : RateType) (xs : List ExtraPayment) (i m : ℕ) (B2 Q : ℤ) : ℤ :=
  match rt with
  | RateType.SAC =>
      if 0 < extraAt xs i then roundHalfUp ((B2 : ℚ) / (m : ℚ)) else Q
  | _ => Q

/-- Modelled from the spec: the schedule-generation loop.  The fuel argument
is the number of periods still to generate; the last period absorbs the
residual drift, and generation terminates immediately (that period becoming
the final installment) as soon as the remaining balance is at or below the
rounding tolerance of zero minor units. -/
def scheduleLoop (rt : RateType) (r : ℚ) (A : ℤ) (xs : List ExtraPayment) :
    ℕ → ℕ → ℤ → ℤ → List Installment
  | 0, _, _, _ => []
  | 1, i, B, _ => [finalInstallment r i B]
  | k + 2, i, B, Q =>
      periodInst rt r A xs i B Q ::
        (if (periodInst rt r A xs i B Q).remainingBalance ≤ 0 then []
         else
           scheduleLoop rt r A xs (k + 1) (i + 1)
             (periodInst rt r A xs i B Q).remainingBalance
             (nextQ rt xs i (k + 1) (periodInst rt r A xs i B Q).remainingBalance Q))

/-- Modelled from the spec: the validation constraints checked before any
computation: `principal > 0`, `annualRatePercent >= 0`, `termMonths >= 1`,
each extra payment with positive amount and period index within
`[1, totalPeriods]`, and pairwise distinct extra-payment period indices.
(The frequency and rate type are recognized enum values by construction of
the closed inductive types.) -/
abbrev ValidSpec (s : LoanSpec) : Prop :=
  0 < s.principal ∧ 0 ≤ s.annualRatePercent ∧ 1 ≤ s.termMonths ∧
    (∀ e ∈ s.extraPayments,
      0 < e.amount ∧ 1 ≤ e.periodIndex ∧ e.periodIndex ≤ totalPeriods s) ∧
    (s.extraPayments.map (fun e => e.periodIndex)).Nodup

/-- Modelled from the spec: the machine-readable field-error list reported
by validation, all violations reported together. -/
def validationErrors (s : LoanSpec) : List String :=
  (if s.principal ≤ 0 then ["principal must be positive"] else []) ++
    (if s.annualRatePercent < 0 then ["annualRatePercent must be non-negative"] else []) ++
    (if s.termMonths = 0 then ["termMonths must be at least 1"] else []) ++
    (if s.extraPayments.all
        (fun e => decide (0 < e.amount) && decide (1 ≤ e.periodIndex) &&
          decide (e.periodIndex ≤ totalPeriods s)) then []
     else ["extra payment non-positive or period index out of range"]) ++
    (if (s.extraPayments.map (fun e => e.periodIndex)).Nodup then []
     else ["duplicate extra payment period index"])

/-- Modelled from the spec: schedule generation for a validated loan
specification, dispatching on the rate type.  `r` is the per-period rate:
the spec derives it from the annual rate by the compound conversion
`periodRate = (1 + annualRatePercent/100)^(1/periodsPerYear) - 1`, an
irrational real in general, so the model takes the resulting per-period
rate as an explicit rational parameter; the conversion maps a zero annual
rate to the zero period rate and a non-negative annual rate to a
non-negative period rate, which is how the theorems below constrain `r`. -/
def computeScheduleCore (s : LoanSpec) (r : ℚ) : AmortizationResult :=
  let n := totalPeriods s
  let insts :=
    match s.rateType with
    | RateType.SAC =>
        scheduleLoop RateType.SAC r 0 s.extraPayments n 1 s.principal
          (roundHalfUp ((s.principal : ℚ) / (n : ℚ)))
    | rt => scheduleLoop rt r (annuity s.principal r n) s.extraPayments n 1 s.principal 0
  { installments := insts
    totalInterestPaid := (insts.map Installment.interestPortion).sum
    totalPaid := (insts.map Installment.paymentAmount).sum +
      (insts.map Installment.extraPortion).sum }

/-- Modelled from the spec: the engine contract
`computeSchedule(spec) -> AmortizationResult`, failing with the sole error
kind `ValidationError` when a validation constraint is violated and
performing no computation in that case. -/
def computeSchedule (s : LoanSpec) (r : ℚ) : Except ValidationError AmortizationResult :=
  if ValidSpec s then Except.ok (computeScheduleCore s r)
  else Except.error ⟨validationErrors s⟩

/-- Sum of the principal portions of a schedule. -/
def principalSum (L : List Installment) : ℤ :=
  (L.map Installment.principalPortion).sum

/-- Sum of the applied extra-payment portions of a schedule. -/
def extraSum (L : List Installment) : ℤ :=
  (L.map Installment.extraPortion).sum

/-- The remaining balance after the last installment of a schedule
(zero for the empty schedule). -/
def lastBalance (L : List Installment) : ℤ :=
  (L.getLast?.map Installment.remainingBalance).getD 0

/-- The balance recurrence of the spec data model: starting from an opening
balance, every installment's remaining balance is the previous balance
minus its principal portion minus the extra payment applied at its
period. -/
def ChainFrom : ℤ → List Installment → Prop
  | _, [] => True
  | prev, inst :: rest =>
      inst.remainingBalance = prev - inst.principalPortion - inst.extraPortion ∧
        ChainFrom inst.remainingBalance rest

/-! ### Basic arithmetic facts about the rounding and the period step -/

theorem roundHalfUp_mono {q q' : ℚ} (h : q ≤ q') : roundHalfUp q ≤ roundHalfUp q' :=
  Int.floor_le_floor (by linarith)

theorem roundHalfUp_nonneg {q : ℚ} (h : 0 ≤ q) : 0 ≤ roundHalfUp q := by
  unfold roundHalfUp
  have : ((0 : ℤ) : ℚ) ≤ q + 1 / 2 := by push_cast; linarith
  exact Int.le_floor.mpr this

theorem roundHalfUp_zero : roundHalfUp 0 = 0 := by
  unfold roundHalfUp
  norm_num

theorem interestOf_nonneg {r : ℚ} {B : ℤ} (hr : 0 ≤ r) (hB : 0 ≤ B) :
    0 ≤ interestOf r B := by
  apply roundHalfUp_nonneg
  have : (0 : ℚ) ≤ (B : ℚ) := by exact_mod_cast hB
  positivity

theorem interestOf_mono {r : ℚ} {B B' : ℤ} (hr : 0 ≤ r) (h : B ≤ B') :
    interestOf r B ≤ interestOf r B' := by
  apply roundHalfUp_mono
  have : (B : ℚ) ≤ (B' : ℚ) := by exact_mod_cast h
  exact mul_le_mul_of_nonneg_right this hr

theorem interestOf_zero (B : ℤ) : interestOf 0 B = 0 := by
  unfold interestOf
  rw [mul_zero, roundHalfUp_zero]

theorem periodInst_periodIndex (rt : RateType) (r : ℚ) (A : ℤ)
    (xs : List ExtraPayment) (i : ℕ) (B Q : ℤ) :
    (periodInst rt r A xs i B Q).periodIndex = i := rfl

theorem periodInst_interest (rt : RateType) (r : ℚ) (A : ℤ)
    (xs : List ExtraPayment) (i : ℕ) (B Q : ℤ) :
    (periodInst rt r A xs i B Q).interestPortion = interestOf r B := rfl

theorem periodInst_principal (rt : RateType) (r : ℚ) (A : ℤ)
    (xs : List ExtraPayment) (i : ℕ) (B Q : ℤ) :
    (periodInst rt r A xs i B Q).principalPortion =
      max 0 (min (installmentBase rt A Q (interestOf r B)) B) := rfl

theorem periodInst_extra (rt : RateType) (r : ℚ) (A : ℤ)
    (xs : List ExtraPayment) (i : ℕ) (B Q : ℤ) :
    (periodInst rt r A xs i B Q).extraPortion =
      max 0 (min (extraAt xs i)
        (B - (periodInst rt r A xs i B Q).principalPortion)) := rfl

theorem periodInst_balance (rt : RateType) (r : ℚ) (A : ℤ)
    (xs : List ExtraPayment) (i : ℕ) (B Q : ℤ) :
    (periodInst rt r A xs i B Q).remainingBalance =
      B - (periodInst rt r A xs i B Q).principalPortion -
        (periodInst rt r A xs i B Q).extraPortion := rfl

theorem periodInst_payment (rt : RateType) (r : ℚ) (A : ℤ)
    (xs : List ExtraPayment) (i : ℕ) (B Q : ℤ) :
    (periodInst rt r A xs i B Q).paymentAmount =
      (periodInst rt r A xs i B Q).principalPortion +
        (periodInst rt r A xs i B Q).interestPortion := rfl

theorem periodInst_principal_nonneg (rt : RateType) (r : ℚ) (A : ℤ)
    (xs : List ExtraPayment) (i : ℕ) (B Q : ℤ) :
    0 ≤ (periodInst rt r A xs i B Q).principalPortion := by
  rw [periodInst_principal]; omega

theorem periodInst_principal_le (rt : RateType) (r : ℚ) (A : ℤ)
    (xs : List ExtraPayment) (i : ℕ) {B : ℤ} (Q : ℤ) (hB : 0 ≤ B) :
    (periodInst rt r A xs i B Q).principalPortion ≤ B := by
  rw [periodInst_principal]; omega

theorem periodInst_extra_nonneg (rt : RateType) (r : ℚ) (A : ℤ)
    (xs : List ExtraPayment) (i : ℕ) (B Q : ℤ) :
    0 ≤ (periodInst rt r A xs i B Q).extraPortion := by
  rw [periodInst_extra]; omega

theorem periodInst_balance_nonneg (rt : RateType) (r : ℚ) (A : ℤ)
    (xs : List ExtraPayment) (i : ℕ) {B : ℤ} (Q : ℤ) (hB : 0 ≤ B) :
    0 ≤ (periodInst rt r A xs i B Q).remainingBalance := by
  have h1 := periodInst_principal_le rt r A xs i Q hB
  rw [periodInst_balance, periodInst_extra]
  rw [periodInst_principal] at h1 ⊢
  omega

theorem periodInst_balance_le (rt : RateType) (r : ℚ) (A : ℤ)
    (xs : List ExtraPayment) (i : ℕ) {B : ℤ} (Q : ℤ) (_hB : 0 ≤ B) :
    (periodInst rt r A xs i B Q).remainingBalance ≤ B := by
  have h1 := periodInst_principal_nonneg rt r A xs i B Q
  have h2 := periodInst_extra_nonneg rt r A xs i B Q
  rw [periodInst_balance]
  omega

/-! ### Structural lemmas about the schedule-generation loop -/

theorem scheduleLoop_ne_nil (rt : RateType) (r : ℚ) (A : ℤ)
    (xs : List ExtraPayment) (k i : ℕ) (B Q : ℤ) :
    scheduleLoop rt r A xs (k + 1) i B Q ≠ [] := by
  cases k with
  | zero => simp [scheduleLoop]
  | succ m => simp [scheduleLoop]

theorem lastBalance_cons {a : Installment} {L : List Installment} (h : L ≠ []) :
    lastBalance (a :: L) = lastBalance L := by
  cases L with
  | nil => exact absurd rfl h
  | cons b t =>
      unfold lastBalance
      rw [List.getLast?_cons_cons]

theorem lastBalance_singleton (a : Installment) :
    lastBalance [a] = a.remainingBalance := rfl

theorem scheduleLoop_lastBalance (rt : RateType) (r : ℚ) (A : ℤ)
    (xs : List ExtraPayment) :
    ∀ (k i : ℕ) (B Q : ℤ), 0 ≤ B →
      lastBalance (scheduleLoop rt r A xs (k + 1) i B Q) = 0 := by
  intro k
  induction k with
  | zero =>
      intro i B Q hB
      simp [scheduleLoop, lastBalance, finalInstallment]
  | succ m ih =>
      intro i B Q hB
      rw [show m + 1 + 1 = m + 2 from rfl, scheduleLoop]
      set inst := periodInst rt r A xs i B Q with hinst
      by_cases hstop : inst.remainingBalance ≤ 0
      · rw [if_pos hstop]
        have h0 := periodInst_balance_nonneg rt r A xs i Q hB
        rw [← hinst] at h0
        rw [lastBalance_singleton]
        omega
      · rw [if_neg hstop]
        have hb2 : 0 ≤ inst.remainingBalance := by omega
        rw [lastBalance_cons (scheduleLoop_ne_nil rt r A xs m (i + 1) _ _)]
        exact ih (i + 1) inst.remainingBalance _ hb2

theorem scheduleLoop_sum (rt : RateType) (r : ℚ) (A : ℤ)
    (xs : List ExtraPayment) :
    ∀ (k i : ℕ) (B Q : ℤ), 0 ≤ B →
      principalSum (scheduleLoop rt r A xs (k + 1) i B Q) +
        extraSum (scheduleLoop rt r A xs (k + 1) i B Q) = B := by
  intro k
  induction k with
  | zero =>
      intro i B Q hB
      simp [scheduleLoop, principalSum, extraSum, finalInstallment]
  | succ m ih =>
      intro i B Q hB
      rw [show m + 1 + 1 = m + 2 from rfl, scheduleLoop]
      set inst := periodInst rt r A xs i B Q with hinst
      have hbal : inst.remainingBalance =
          B - inst.principalPortion - inst.extraPortion := periodInst_balance ..
      by_cases hstop : inst.remainingBalance ≤ 0
      · rw [if_pos hstop]
        have h0 := periodInst_balance_nonneg rt r A xs i Q hB
        rw [← hinst] at h0
        simp only [principalSum, extraSum, List.map_cons, List.map_nil,
          List.sum_cons, List.sum_nil]
        omega
      · rw [if_neg hstop]
        have hb2 : 0 ≤ inst.remainingBalance := by omega
        have := ih (i + 1) inst.remainingBalance
          (nextQ rt xs i (m + 1) inst.remainingBalance Q) hb2
        simp only [principalSum, extraSum, List.map_cons, List.sum_cons] at this ⊢
        omega

theorem scheduleLoop_chain (rt : RateType) (r : ℚ) (A : ℤ)
    (xs : List ExtraPayment) :
    ∀ (k i : ℕ) (B Q : ℤ),
      ChainFrom B (scheduleLoop rt r A xs (k + 1) i B Q) := by
  intro k
  induction k with
  | zero =>
      intro i B Q
      simp only [scheduleLoop, ChainFrom, finalInstallment]
      exact ⟨by omega, trivial⟩
  | succ m ih =>
      intro i B Q
      rw [show m + 1 + 1 = m + 2 from rfl, scheduleLoop]
      set inst := periodInst rt r A xs i B Q with hinst
      have hbal : inst.remainingBalance =
          B - inst.principalPortion - inst.extraPortion := periodInst_balance ..
      by_cases hstop : inst.remainingBalance ≤ 0
      · rw [if_pos hstop]
        exact ⟨hbal, trivial⟩
      · rw [if_neg hstop]
        exact ⟨hbal, ih (i + 1) inst.remainingBalance _⟩

theorem scheduleLoop_payment_eq (rt : RateType) (r : ℚ) (A : ℤ)
    (xs : List ExtraPayment) :
    ∀ (k i : ℕ) (B Q : ℤ), ∀ inst ∈ scheduleLoop rt r A xs (k + 1) i B Q,
      inst.paymentAmount = inst.principalPortion + inst.interestPortion := by
  intro k
  induction k with
  | zero =>
      intro i B Q inst hmem
      simp only [scheduleLoop, List.mem_singleton] at hmem
      subst hmem
      rfl
  | succ m ih =>
      intro i B Q inst hmem
      rw [show m + 1 + 1 = m + 2 from rfl, scheduleLoop] at hmem
      by_cases hstop : (periodInst rt r A xs i B Q).remainingBalance ≤ 0
      · rw [if_pos hstop] at hmem
        simp only [List.mem_singleton, List.not_mem_nil, List.mem_cons, or_false] at hmem
        subst hmem
        exact periodInst_payment ..
      · rw [if_neg hstop] at hmem
        rcases List.mem_cons.mp hmem with h | h
        · subst h
          exact periodInst_payment ..
        · exact ih (i + 1) _ _ inst h

theorem scheduleLoop_nonneg (rt : RateType) (r : ℚ) (A : ℤ)
    (xs : List ExtraPayment) (hr : 0 ≤ r) :
    ∀ (k i : ℕ) (B Q : ℤ), 0 ≤ B →
      ∀ inst ∈ scheduleLoop rt r A xs (k + 1) i B Q,
        0 ≤ inst.principalPortion ∧ 0 ≤ inst.interestPortion ∧
          0 ≤ inst.extraPortion ∧ 0 ≤ inst.remainingBalance := by
  intro k
  induction k with
  | zero =>
      intro i B Q hB inst hmem
      simp only [scheduleLoop, List.mem_singleton] at hmem
      subst hmem
      exact ⟨hB, interestOf_nonneg hr hB, le_refl 0, le_refl 0⟩
  | succ m ih =>
      intro i B Q hB inst hmem
      rw [show m + 1 + 1 = m + 2 from rfl, scheduleLoop] at hmem
      have hhead : 0 ≤ (periodInst rt r A xs i B Q).principalPortion ∧
          0 ≤ (periodInst rt r A xs i B Q).interestPortion ∧
          0 ≤ (periodInst rt r A xs i B Q).extraPortion ∧
          0 ≤ (periodInst rt r A xs i B Q).remainingBalance := by
        refine ⟨periodInst_principal_nonneg .., ?_, periodInst_extra_nonneg ..,
          periodInst_balance_nonneg rt r A xs i Q hB⟩
        rw [periodInst_interest]
        exact interestOf_nonneg hr hB
      by_cases hstop : (periodInst rt r A xs i B Q).remainingBalance ≤ 0
      · rw [if_pos hstop] at hmem
        simp only [List.mem_singleton, List.not_mem_nil, List.mem_cons, or_false] at hmem
        subst hmem
        exact hhead
      · rw [if_neg hstop] at hmem
        rcases List.mem_cons.mp hmem with h | h
        · subst h
          exact hhead
        · exact ih (i + 1) _ _ hhead.2.2.2 inst h

theorem scheduleLoop_eq_cons (rt : RateType) (r : ℚ) (A : ℤ)
    (xs : List ExtraPayment) (m i : ℕ) (B Q : ℤ) :
    scheduleLoop rt r A xs (m + 2) i B Q =
      periodInst rt r A xs i B Q ::
        (if (periodInst rt r A xs i B Q).remainingBalance ≤ 0 then []
         else
           scheduleLoop rt r A xs (m + 1) (i + 1)
             (periodInst rt r A xs i B Q).remainingBalance
             (nextQ rt xs i (m + 1) (periodInst rt r A xs i B Q).remainingBalance Q)) :=
  rfl

theorem scheduleLoop_balance_zero_last (rt : RateType) (r : ℚ) (A : ℤ)
    (xs : List ExtraPayment) :
    ∀ (k i : ℕ) (B Q : ℤ) (j : ℕ) (inst : Installment),
      (scheduleLoop rt r A xs (k + 1) i B Q).get? j = some inst →
      inst.remainingBalance = 0 →
        j + 1 = (scheduleLoop rt r A xs (k + 1) i B Q).length := by
  intro k
  induction k with
  | zero =>
      intro i B Q j inst hget _
      have hj := (List.get?_eq_some.mp hget).1
      simp only [Nat.zero_add, scheduleLoop, List.length_singleton] at hj ⊢
      omega
  | succ m ih =>
      intro i B Q j inst hget hz
      rw [show m + 1 + 1 = m + 2 from rfl, scheduleLoop_eq_cons] at hget ⊢
      by_cases hstop : (periodInst rt r A xs i B Q).remainingBalance ≤ 0
      · rw [if_pos hstop] at hget ⊢
        have hj := (List.get?_eq_some.mp hget).1
        simp only [List.length_cons, List.length_singleton, List.length_nil] at hj ⊢
        omega
      · rw [if_neg hstop] at hget ⊢
        cases j with
        | zero =>
            rw [List.get?_cons_zero] at hget
            injection hget with hget
            rw [← hget] at hz
            omega
        | succ j' =>
            rw [List.get?_cons_succ] at hget
            have := ih (i + 1) (periodInst rt r A xs i B Q).remainingBalance
              (nextQ rt xs i (m + 1)
                (periodInst rt r A xs i B Q).remainingBalance Q) j' inst hget hz
            simp only [List.length_cons]
            omega

theorem scheduleLoop_extra_pos_early (rt : RateType) (r : ℚ) (A : ℤ)
    (xs : List ExtraPayment) :
    ∀ (k i : ℕ) (B Q : ℤ) (j : ℕ) (inst : Installment),
      (scheduleLoop rt r A xs (k + 1) i B Q).get? j = some inst →
      0 < inst.extraPortion →
        j + 1 ≤ k := by
  intro k
  induction k with
  | zero =>
      intro i B Q j inst hget hpos
      have hj := (List.get?_eq_some.mp hget).1
      simp only [scheduleLoop, List.length_singleton] at hj
      have hj0 : j = 0 := by omega
      subst hj0
      simp only [scheduleLoop, List.get?_cons_zero] at hget
      injection hget with hget
      rw [← hget] at hpos
      simp only [finalInstallment] at hpos
      omega
  | succ m ih =>
      intro i B Q j inst hget hpos
      rw [show m + 1 + 1 = m + 2 from rfl, scheduleLoop_eq_cons] at hget
      by_cases hstop : (periodInst rt r A xs i B Q).remainingBalance ≤ 0
      · rw [if_pos hstop] at hget
        have hj := (List.get?_eq_some.mp hget).1
        simp only [List.length_cons, List.length_nil] at hj
        omega
      · rw [if_neg hstop] at hget
        cases j with
        | zero => omega
        | succ j' =>
            rw [List.get?_cons_succ] at hget
            have := ih (i + 1) (periodInst rt r A xs i B Q).remainingBalance
              (nextQ rt xs i (m + 1)
                (periodInst rt r A xs i B Q).remainingBalance Q) j' inst hget hpos
            omega

theorem scheduleLoop_length_le (rt : RateType) (r : ℚ) (A : ℤ)
    (xs : List ExtraPayment) :
    ∀ (k i : ℕ) (B Q : ℤ),
      (scheduleLoop rt r A xs (k + 1) i B Q).length ≤ k + 1 := by
  intro k
  induction k with
  | zero =>
      intro i B Q
      simp [scheduleLoop]
  | succ m ih =>
      intro i B Q
      rw [show m + 1 + 1 = m + 2 from rfl, scheduleLoop_eq_cons]
      by_cases hstop : (periodInst rt r A xs i B Q).remainingBalance ≤ 0
      · rw [if_pos hstop]
        simp
      · rw [if_neg hstop]
        simp only [List.length_cons]
        have := ih (i + 1) (periodInst rt r A xs i B Q).remainingBalance
          (nextQ rt xs i (m + 1) (periodInst rt r A xs i B Q).remainingBalance Q)
        omega

/-! ### Rate-type specific behavior of the loop -/

theorem installmentBase_of_ne_sac {rt : RateType} (hrt : rt ≠ RateType.SAC)
    (A Q interest : ℤ) : installmentBase rt A Q interest = A - interest := by
  cases rt with
  | FIXED => rfl
  | PRICE_TABLE => rfl
  | SAC => exact absurd rfl hrt

theorem installmentBase_sac (A Q interest : ℤ) :
    installmentBase RateType.SAC A Q interest = Q := rfl

theorem extraAt_nil (i : ℕ) : extraAt [] i = 0 := rfl

theorem nextQ_nil (rt : RateType) (i m : ℕ) (B2 Q : ℤ) :
    nextQ rt [] i m B2 Q = Q := by
  cases rt <;> simp [nextQ, extraAt_nil]

/-- If a period does not pay the loan off (positive balance remains), its
clamped scheduled principal is exactly the unclamped base amount. -/
theorem periodInst_sched_of_continue (rt : RateType) (r : ℚ) (A : ℤ)
    (xs : List ExtraPayment) (i : ℕ) {B : ℤ} (Q : ℤ) (hB : 0 ≤ B)
    (hbase : 0 ≤ installmentBase rt A Q (interestOf r B))
    (hcont : ¬(periodInst rt r A xs i B Q).remainingBalance ≤ 0) :
    (periodInst rt r A xs i B Q).principalPortion =
      installmentBase rt A Q (interestOf r B) := by
  rw [periodInst_balance, periodInst_extra, periodInst_principal] at hcont
  rw [periodInst_principal]
  omega

theorem scheduleLoop_price_pay (rt : RateType) (hrt : rt ≠ RateType.SAC)
    (r : ℚ) (A : ℤ) (xs : List ExtraPayment) (hr : 0 ≤ r) :
    ∀ (k i : ℕ) (B Q : ℤ) (j : ℕ) (inst : Installment), 0 ≤ B →
      interestOf r B ≤ A →
      (scheduleLoop rt r A xs (k + 1) i B Q).get? j = some inst →
      j + 1 < (scheduleLoop rt r A xs (k + 1) i B Q).length →
      inst.paymentAmount = A := by
  intro k
  induction k with
  | zero =>
      intro i B Q j inst _ _ _ hlen
      simp only [Nat.zero_add, scheduleLoop, List.length_singleton] at hlen
      omega
  | succ m ih =>
      intro i B Q j inst hB hIA hget hlen
      rw [show m + 1 + 1 = m + 2 from rfl, scheduleLoop_eq_cons] at hget hlen
      by_cases hstop : (periodInst rt r A xs i B Q).remainingBalance ≤ 0
      · rw [if_pos hstop] at hlen
        simp only [List.length_cons, List.length_nil] at hlen
        omega
      · rw [if_neg hstop] at hget hlen
        cases j with
        | zero =>
            rw [List.get?_cons_zero] at hget
            injection hget with hget
            subst hget
            rw [periodInst_payment, periodInst_interest,
              periodInst_sched_of_continue rt r A xs i Q hB
                (by rw [installmentBase_of_ne_sac hrt]; omega) hstop,
              installmentBase_of_ne_sac hrt]
            ring
        | succ j' =>
            rw [List.get?_cons_succ] at hget
            simp only [List.length_cons] at hlen
            have hB2 : 0 ≤ (periodInst rt r A xs i B Q).remainingBalance := by
              omega
            have hIA2 : interestOf r (periodInst rt r A xs i B Q).remainingBalance ≤ A :=
              le_trans (interestOf_mono hr (periodInst_balance_le rt r A xs i Q hB)) hIA
            exact ih (i + 1) (periodInst rt r A xs i B Q).remainingBalance
              (nextQ rt xs i (m + 1) (periodInst rt r A xs i B Q).remainingBalance Q)
              j' inst hB2 hIA2 hget (by omega)

theorem scheduleLoop_sac_head (r : ℚ) (A : ℤ) :
    ∀ (k i : ℕ) (B Q : ℤ) (inst : Installment), 0 ≤ B → 0 ≤ Q →
      (scheduleLoop RateType.SAC r A [] (k + 1) i B Q).get? 0 = some inst →
      1 < (scheduleLoop RateType.SAC r A [] (k + 1) i B Q).length →
      inst.paymentAmount = Q + interestOf r B := by
  intro k
  cases k with
  | zero =>
      intro i B Q inst _ _ _ hlen
      simp only [Nat.zero_add, scheduleLoop, List.length_singleton] at hlen
      omega
  | succ m =>
      intro i B Q inst hB hQ hget hlen
      rw [show m + 1 + 1 = m + 2 from rfl, scheduleLoop_eq_cons] at hget hlen
      by_cases hstop :
          (periodInst RateType.SAC r A [] i B Q).remainingBalance ≤ 0
      · rw [if_pos hstop] at hlen
        simp only [List.length_cons, List.length_nil] at hlen
        omega
      · rw [if_neg hstop] at hget
        rw [List.get?_cons_zero] at hget
        injection hget with hget
        subst hget
        rw [periodInst_payment, periodInst_interest,
          periodInst_sched_of_continue RateType.SAC r A [] i Q hB
            (by rw [installmentBase_sac]; omega) hstop,
          installmentBase_sac]

theorem scheduleLoop_sac_mono (r : ℚ) (A : ℤ) (hr : 0 ≤ r) :
    ∀ (k i : ℕ) (B Q : ℤ) (j : ℕ) (a b : Installment), 0 ≤ B → 0 ≤ Q →
      (scheduleLoop RateType.SAC r A [] (k + 1) i B Q).get? j = some a →
      (scheduleLoop RateType.SAC r A [] (k + 1) i B Q).get? (j + 1) = some b →
      j + 2 < (scheduleLoop RateType.SAC r A [] (k + 1) i B Q).length →
      b.paymentAmount ≤ a.paymentAmount := by
  intro k
  induction k with
  | zero =>
      intro i B Q j a b _ _ _ _ hlen
      simp only [Nat.zero_add, scheduleLoop, List.length_singleton] at hlen
      omega
  | succ m ih =>
      intro i B Q j a b hB hQ hga hgb hlen
      rw [show m + 1 + 1 = m + 2 from rfl, scheduleLoop_eq_cons] at hga hgb hlen
      by_cases hstop :
          (periodInst RateType.SAC r A [] i B Q).remainingBalance ≤ 0
      · rw [if_pos hstop] at hlen
        simp only [List.length_cons, List.length_nil] at hlen
        omega
      · rw [if_neg hstop] at hga hgb hlen
        rw [nextQ_nil] at hga hgb hlen
        simp only [List.length_cons] at hlen
        have hB2 : 0 ≤ (periodInst RateType.SAC r A [] i B Q).remainingBalance := by
          omega
        cases j with
        | zero =>
            rw [List.get?_cons_zero] at hga
            injection hga with hga
            subst hga
            rw [List.get?_cons_succ] at hgb
            have hbpay : b.paymentAmount =
                Q + interestOf r (periodInst RateType.SAC r A [] i B Q).remainingBalance :=
              scheduleLoop_sac_head r A m (i + 1)
                (periodInst RateType.SAC r A [] i B Q).remainingBalance Q b hB2 hQ hgb
                (by omega)
            have hapay : (periodInst RateType.SAC r A [] i B Q).paymentAmount =
                Q + interestOf r B := by
              rw [periodInst_payment, periodInst_interest,
                periodInst_sched_of_continue RateType.SAC r A [] i Q hB
                  (by rw [installmentBase_sac]; omega) hstop,
                installmentBase_sac]
            rw [hbpay, hapay]
            have := interestOf_mono hr (periodInst_balance_le RateType.SAC r A [] i Q hB)
            omega
        | succ j' =>
            rw [List.get?_cons_succ] at hga hgb
            exact ih (i + 1) (periodInst RateType.SAC r A [] i B Q).remainingBalance
              Q j' a b hB2 hQ hga hgb (by omega)

theorem interest_le_annuity {P : ℤ} {r : ℚ} {n : ℕ} (hP : 0 ≤ P) (hr : 0 ≤ r)
    (hn : n ≠ 0) : interestOf r P ≤ annuity P r n := by
  have hPq : (0 : ℚ) ≤ (P : ℚ) := by exact_mod_cast hP
  unfold annuity
  by_cases hpos : 0 < r
  · rw [if_pos hpos]
    apply roundHalfUp_mono
    have h1 : (1 : ℚ) < (1 + r) ^ n := one_lt_pow₀ (by linarith) hn
    have hip : (0 : ℚ) < ((1 + r) ^ n)⁻¹ := by positivity
    have hil : ((1 + r) ^ n)⁻¹ < 1 := inv_lt_one_of_one_lt₀ h1
    have hd : (0 : ℚ) < 1 - ((1 + r) ^ n)⁻¹ := by linarith
    rw [le_div_iff₀ hd]
    have hPr : (0 : ℚ) ≤ (P : ℚ) * r := mul_nonneg hPq hr
    nlinarith
  · have hr0 : r = 0 := le_antisymm (not_lt.mp hpos) hr
    subst hr0
    rw [if_neg hpos, interestOf_zero]
    apply roundHalfUp_nonneg
    positivity

/-! ### Zero-rate behavior -/

theorem scheduleLoop_zero_interest (rt : RateType) (A : ℤ)
    (xs : List ExtraPayment) :
    ∀ (k i : ℕ) (B Q : ℤ), ∀ inst ∈ scheduleLoop rt 0 A xs (k + 1) i B Q,
      inst.interestPortion = 0 := by
  intro k
  induction k with
  | zero =>
      intro i B Q inst hmem
      simp only [Nat.zero_add, scheduleLoop, List.mem_singleton] at hmem
      subst hmem
      simp [finalInstallment, interestOf_zero]
  | succ m ih =>
      intro i B Q inst hmem
      rw [show m + 1 + 1 = m + 2 from rfl, scheduleLoop_eq_cons] at hmem
      rcases List.mem_cons.mp hmem with h | h
      · subst h
        rw [periodInst_interest, interestOf_zero]
      · by_cases hstop : (periodInst rt 0 A xs i B Q).remainingBalance ≤ 0
        · rw [if_pos hstop] at h
          exact absurd h (List.not_mem_nil inst)
        · rw [if_neg hstop] at h
          exact ih (i + 1) _ _ inst h

theorem scheduleLoop_no_extra (rt : RateType) (r : ℚ) (A : ℤ) :
    ∀ (k i : ℕ) (B Q : ℤ), ∀ inst ∈ scheduleLoop rt r A [] (k + 1) i B Q,
      inst.extraPortion = 0 := by
  intro k
  induction k with
  | zero =>
      intro i B Q inst hmem
      simp only [Nat.zero_add, scheduleLoop, List.mem_singleton] at hmem
      subst hmem
      rfl
  | succ m ih =>
      intro i B Q inst hmem
      rw [show m + 1 + 1 = m + 2 from rfl, scheduleLoop_eq_cons] at hmem
      rcases List.mem_cons.mp hmem with h | h
      · subst h
        rw [periodInst_extra, extraAt_nil]
        omega
      · by_cases hstop : (periodInst rt r A [] i B Q).remainingBalance ≤ 0
        · rw [if_pos hstop] at h
          exact absurd h (List.not_mem_nil inst)
        · rw [if_neg hstop] at h
          exact ih (i + 1) _ _ inst h

theorem scheduleLoop_zero_portion (rt : RateType) (A : ℤ) :
    ∀ (k i : ℕ) (B Q : ℤ) (j : ℕ) (inst : Installment), 0 ≤ B →
      0 ≤ installmentBase rt A Q 0 →
      (scheduleLoop rt 0 A [] (k + 1) i B Q).get? j = some inst →
      j + 1 < (scheduleLoop rt 0 A [] (k + 1) i B Q).length →
      inst.principalPortion = installmentBase rt A Q 0 := by
  intro k
  induction k with
  | zero =>
      intro i B Q j inst _ _ _ hlen
      simp only [Nat.zero_add, scheduleLoop, List.length_singleton] at hlen
      omega
  | succ m ih =>
      intro i B Q j inst hB hbase hget hlen
      rw [show m + 1 + 1 = m + 2 from rfl, scheduleLoop_eq_cons] at hget hlen
      by_cases hstop : (periodInst rt 0 A [] i B Q).remainingBalance ≤ 0
      · rw [if_pos hstop] at hlen
        simp only [List.length_cons, List.length_nil] at hlen
        omega
      · rw [if_neg hstop] at hget hlen
        rw [nextQ_nil] at hget hlen
        cases j with
        | zero =>
            rw [List.get?_cons_zero] at hget
            injection hget with hget
            subst hget
            rw [periodInst_sched_of_continue rt 0 A [] i Q hB
              (by rw [interestOf_zero]; exact hbase) hstop, interestOf_zero]
        | succ j' =>
            rw [List.get?_cons_succ] at hget
            simp only [List.length_cons] at hlen
            have hB2 : 0 ≤ (periodInst rt 0 A [] i B Q).remainingBalance := by
              omega
            exact ih (i + 1) (periodInst rt 0 A [] i B Q).remainingBalance Q j'
              inst hB2 hbase hget (by omega)

/-! ### Balance monotonicity from the chain -/

theorem chainFrom_nonincreasing :
    ∀ (L : List Installment) (B : ℤ), ChainFrom B L →
      (∀ inst ∈ L, 0 ≤ inst.principalPortion ∧ 0 ≤ inst.extraPortion) →
      List.Chain' (fun a b => b.remainingBalance ≤ a.remainingBalance) L := by
  intro L
  induction L with
  | nil => intro B _ _; simp
  | cons a t ih =>
      intro B hchain hpos
      cases t with
      | nil => simp
      | cons b t2 =>
          rw [List.chain'_cons]
          obtain ⟨ha, hchain2⟩ := hchain
          have hb := hchain2.1
          have hbpos := hpos b (by simp)
          constructor
          · omega
          · exact ih a.remainingBalance hchain2
              (fun inst hmem => hpos inst (List.mem_cons_of_mem a hmem))

/-! ### Top-level helpers about computeSchedule -/

theorem computeSchedule_eq_ok {s : LoanSpec} (r : ℚ) (h : ValidSpec s) :
    computeSchedule s r = Except.ok (computeScheduleCore s r) := by
  unfold computeSchedule
  rw [if_pos h]

theorem computeSchedule_eq_error {s : LoanSpec} (r : ℚ) (h : ¬ValidSpec s) :
    computeSchedule s r = Except.error ⟨validationErrors s⟩ := by
  unfold computeSchedule
  rw [if_neg h]

theorem computeSchedule_ok_inv {s : LoanSpec} {r : ℚ} {res : AmortizationResult}
    (h : computeSchedule s r = Except.ok res) :
    ValidSpec s ∧ res = computeScheduleCore s r := by
  by_cases hv : ValidSpec s
  · rw [computeSchedule_eq_ok r hv] at h
    injection h with h
    exact ⟨hv, h.symm⟩
  · rw [computeSchedule_eq_error r hv] at h
    cases h

theorem periodsPerYear_ge (f : PaymentFrequency) : 12 ≤ periodsPerYear f := by
  cases f <;> decide

theorem totalPeriods_pos {s : LoanSpec} (h : 1 ≤ s.termMonths) :
    1 ≤ totalPeriods s := by
  unfold totalPeriods
  have hp := periodsPerYear_ge s.paymentFrequency
  have h12 : 12 ≤ s.termMonths * periodsPerYear s.paymentFrequency :=
    le_trans hp (Nat.le_mul_of_pos_left _ (by omega))
  omega

/-- The annuity parameter and SAC parameter actually used by the core for a
given spec. -/
def coreA (s : LoanSpec) (r : ℚ) : ℤ :=
  match s.rateType with
  | RateType.SAC => 0
  | _ => annuity s.principal r (totalPeriods s)

/-- The initial SAC constant-amortization amount used by the core. -/
def coreQ (s : LoanSpec) : ℤ :=
  match s.rateType with
  | RateType.SAC => roundHalfUp ((s.principal : ℚ) / (totalPeriods s : ℚ))
  | _ => 0

theorem core_installments_eq (s : LoanSpec) (r : ℚ) :
    (computeScheduleCore s r).installments =
      scheduleLoop s.rateType r (coreA s r) s.extraPayments (totalPeriods s) 1
        s.principal (coreQ s) := by
  unfold computeScheduleCore coreA coreQ
  cases s.rateType <;> rfl

theorem coreQ_nonneg {s : LoanSpec} (h : 0 ≤ s.principal) : 0 ≤ coreQ s := by
  unfold coreQ
  cases s.rateType with
  | SAC =>
      apply roundHalfUp_nonneg
      have : (0 : ℚ) ≤ (s.principal : ℚ) := by exact_mod_cast h
      positivity
  | FIXED => exact le_refl 0
  | PRICE_TABLE => exact le_refl 0

/-! ### Integer form of the zero-rate schedule, for concrete evaluation -/

/-- Round-half-up of the fraction `num / den` computed purely on integers:
for a positive denominator, `(2*num + den) / (2*den)` with floor-compatible
integer division. -/
def roundHalfUpZ (num : ℤ) (den : ℕ) : ℤ :=
  (2 * num + den) / ((2 * den : ℕ) : ℤ)

theorem roundHalfUp_div_eq (num : ℤ) (den : ℕ) (h : 0 < den) :
    roundHalfUp ((num : ℚ) / (den : ℚ)) = roundHalfUpZ num den := by
  unfold roundHalfUp roundHalfUpZ
  have hd : ((den : ℚ)) ≠ 0 := by
    have : (0 : ℚ) < (den : ℚ) := by exact_mod_cast h
    exact ne_of_gt this
  have harg : (num : ℚ) / (den : ℚ) + 1 / 2 =
      ((2 * num + den : ℤ) : ℚ) / ((2 * den : ℕ) : ℚ) := by
    push_cast
    field_simp
    ring
  rw [harg, Rat.floor_intCast_div_natCast]

/-- The zero-rate period step on integers only. -/
def periodInstZ (rt : RateType) (A : ℤ) (xs : List ExtraPayment)
    (i : ℕ) (B Q : ℤ) : Installment :=
  let sched := max 0 (min (installmentBase rt A Q 0) B)
  let e := max 0 (min (extraAt xs i) (B - sched))
  { periodIndex := i
    paymentAmount := sched
    principalPortion := sched
    interestPortion := 0
    extraPortion := e
    remainingBalance := B - sched - e }

theorem periodInst_zero (rt : RateType) (A : ℤ) (xs : List ExtraPayment)
    (i : ℕ) (B Q : ℤ) : periodInst rt 0 A xs i B Q = periodInstZ rt A xs i B Q := by
  simp [periodInst, periodInstZ, interestOf_zero]

/-- The zero-rate SAC recomputation on integers only. -/
def nextQZ (rt : RateType) (xs : List ExtraPayment) (i m : ℕ) (B2 Q : ℤ) : ℤ :=
  match rt with
  | RateType.SAC =>
      if 0 < extraAt xs i then roundHalfUpZ B2 m else Q
  | _ => Q

theorem nextQ_zero (rt : RateType) (xs : List ExtraPayment) (i m : ℕ)
    (B2 Q : ℤ) (hm : 0 < m) : nextQ rt xs i m B2 Q = nextQZ rt xs i m B2 Q := by
  cases rt with
  | SAC =>
      unfold nextQ nextQZ
      by_cases hx : 0 < extraAt xs i
      · rw [if_pos hx, if_pos hx, roundHalfUp_div_eq B2 m hm]
      · rw [if_neg hx, if_neg hx]
  | FIXED => rfl
  | PRICE_TABLE => rfl

/-- The zero-rate schedule loop on integers only. -/
def scheduleLoopZ (rt : RateType) (A : ℤ) (xs : List ExtraPayment) :
    ℕ → ℕ → ℤ → ℤ → List Installment
  | 0, _, _, _ => []
  | 1, i, B, _ => [⟨i, B, B, 0, 0, 0⟩]
  | k + 2, i, B, Q =>
      periodInstZ rt A xs i B Q ::
        (if (periodInstZ rt A xs i B Q).remainingBalance ≤ 0 then []
         else
           scheduleLoopZ rt A xs (k + 1) (i + 1)
             (periodInstZ rt A xs i B Q).remainingBalance
             (nextQZ rt xs i (k + 1) (periodInstZ rt A xs i B Q).remainingBalance Q))

theorem scheduleLoop_zero_eq (rt : RateType) (A : ℤ) (xs : List ExtraPayment) :
    ∀ (n i : ℕ) (B Q : ℤ),
      scheduleLoop rt 0 A xs n i B Q = scheduleLoopZ rt A xs n i B Q := by
  intro n
  induction n using Nat.strong_induction_on with
  | _ n ih =>
      match n with
      | 0 => intro i B Q; rfl
      | 1 =>
          intro i B Q
          simp [scheduleLoop, scheduleLoopZ, finalInstallment, interestOf_zero]
      | k + 2 =>
          intro i B Q
          rw [scheduleLoop_eq_cons]
          show _ = scheduleLoopZ rt A xs (k + 2) i B Q
          rw [scheduleLoopZ]
          rw [periodInst_zero, nextQ_zero rt xs i (k + 1) _ Q (by omega)]
          by_cases hstop : (periodInstZ rt A xs i B Q).remainingBalance ≤ 0
          · rw [if_pos hstop, if_pos hstop]
          · rw [if_neg hstop, if_neg hstop,
              ih (k + 1) (by omega) (i + 1) (periodInstZ rt A xs i B Q).remainingBalance
                (nextQZ rt xs i (k + 1) (periodInstZ rt A xs i B Q).remainingBalance Q)]

theorem annuity_zero (P : ℤ) (n : ℕ) (hn : 0 < n) :
    annuity P 0 n = roundHalfUpZ P n := by
  unfold annuity
  rw [if_neg (lt_irrefl 0), roundHalfUp_div_eq P n hn]

/-! ### Admin controller pagination, embedded from src/admin.controller.ts

The controller computes
`const page = parseInt(req.query.page as string) || 1` and the analogous
expressions for `limit` (default 20 in getUsers, defaults 1 and 50 in
getAuditLogs) before calling the admin service.  JS `parseInt` on a decimal
string skips leading whitespace, accepts an optional sign and then reads
the longest digit run, producing `NaN` when there is none (in particular on
an absent, hence `undefined`, query parameter); `|| d` replaces the falsy
values `NaN` and `0` by the default `d`. -/

/-- JS `parseInt` with radix 10 on an optional query-string value; `none`
models `NaN`. -/
def jsParseInt (q : Option String) : Option ℤ :=
  match q with
  | none => none
  | some s =>
      let cs := s.data.dropWhile (fun c => c == ' ')
      let sr : ℤ × List Char :=
        match cs with
        | '-' :: t => (-1, t)
        | '+' :: t => (1, t)
        | t => (1, t)
      let ds := sr.2.takeWhile (fun c => decide ('0' ≤ c) && decide (c ≤ '9'))
      if ds.isEmpty then none
      else some (sr.1 * ds.foldl (fun a c => a * 10 + ((c.toNat : ℤ) - 48)) 0)

/-- The JS `||`-with-default idiom applied to a parsed number: `NaN` and `0`
are falsy and replaced by the default. -/
def jsOrDefault (v : Option ℤ) (d : ℤ) : ℤ :=
  match v with
  | none => d
  | some x => if x = 0 then d else x

/-- The pagination part of an incoming admin request. -/
structure AdminQuery where
  page : Option String
  limit : Option String

/-- Embedded from `adminController.getUsers`: the (page, limit) pair passed
to `adminService.getUsers`. -/
def getUsersPagination (q : AdminQuery) : ℤ × ℤ :=
  (jsOrDefault (jsParseInt q.page) 1, jsOrDefault (jsParseInt q.limit) 20)

/-- Embedded from `adminController.getAuditLogs`: the (page, limit) pair
passed to `adminService.getAuditLogs`. -/
def getAuditLogsPagination (q : AdminQuery) : ℤ × ℤ :=
  (jsOrDefault (jsParseInt q.page) 1, jsOrDefault (jsParseInt q.limit) 50)

/-! ### Concrete loan specifications used as witnesses and counterexamples -/

/-- A plain two-period PRICE_TABLE loan of 10 minor units at zero rate. -/
def specPrice : LoanSpec :=
  ⟨10, 0, 2, PaymentFrequency.MONTHLY, RateType.PRICE_TABLE, []⟩

/-- A three-period SAC loan of 4 minor units at zero rate: rounding makes
the absorbing final payment larger than the constant-amortization ones. -/
def specSac : LoanSpec :=
  ⟨4, 0, 3, PaymentFrequency.MONTHLY, RateType.SAC, []⟩

/-- A six-period SAC loan of 8 minor units at zero rate with an extra
payment of 1 at period 4: the recomputation of the constant amortization
after the extra payment bumps the period-5 payment above the period-4
one. -/
def specSacExtra : LoanSpec :=
  ⟨8, 0, 6, PaymentFrequency.MONTHLY, RateType.SAC, [⟨4, 1⟩]⟩

/-- A two-period PRICE_TABLE loan of 100 minor units at zero rate with an
extra payment of 30 at period 1. -/
def specC1 : LoanSpec :=
  ⟨100, 0, 2, PaymentFrequency.MONTHLY, RateType.PRICE_TABLE, [⟨1, 30⟩]⟩

/-- A four-period PRICE_TABLE loan of 100 minor units at zero rate with an
extra payment of 100 at period 2, causing early payoff. -/
def specPayoff : LoanSpec :=
  ⟨100, 0, 4, PaymentFrequency.MONTHLY, RateType.PRICE_TABLE, [⟨2, 100⟩]⟩

/-- An invalid specification: non-positive principal and zero term. -/
def specBad : LoanSpec :=
  ⟨0, 0, 0, PaymentFrequency.MONTHLY, RateType.FIXED, []⟩

theorem specPrice_valid : ValidSpec specPrice :=
  ⟨by decide, le_refl 0, by decide, by simp [specPrice], by decide⟩

theorem specSac_valid : ValidSpec specSac :=
  ⟨by decide, le_refl 0, by decide, by simp [specSac], by decide⟩

theorem specSacExtra_valid : ValidSpec specSacExtra := by
  refine ⟨by decide, le_refl 0, by decide, ?_, by decide⟩
  intro e he
  simp only [specSacExtra, List.mem_singleton] at he
  subst he
  refine ⟨by decide, by decide, ?_⟩
  decide

theorem specC1_valid : ValidSpec specC1 := by
  refine ⟨by decide, le_refl 0, by decide, ?_, by decide⟩
  intro e he
  simp only [specC1, List.mem_singleton] at he
  subst he
  exact ⟨by decide, by decide, by decide⟩

theorem specPayoff_valid : ValidSpec specPayoff := by
  refine ⟨by decide, le_refl 0, by decide, ?_, by decide⟩
  intro e he
  simp only [specPayoff, List.mem_singleton] at he
  subst he
  exact ⟨by decide, by decide, by decide⟩

theorem specBad_invalid : ¬ValidSpec specBad := by
  intro h
  exact absurd h.1 (by decide)

/-! ### Concrete schedule runs -/

theorem run_specPrice : (computeScheduleCore specPrice 0).installments =
    [⟨1, 5, 5, 0, 0, 5⟩, ⟨2, 5, 5, 0, 0, 0⟩] := by
  rw [core_installments_eq, scheduleLoop_zero_eq]
  rw [show coreA specPrice 0 = 5 by
    rw [show coreA specPrice 0 = annuity 10 0 2 from rfl, annuity_zero 10 2 (by decide)]
    decide]
  decide

theorem run_specSac : (computeScheduleCore specSac 0).installments =
    [⟨1, 1, 1, 0, 0, 3⟩, ⟨2, 1, 1, 0, 0, 2⟩, ⟨3, 2, 2, 0, 0, 0⟩] := by
  rw [core_installments_eq, scheduleLoop_zero_eq]
  rw [show coreQ specSac = 1 by
    rw [show coreQ specSac =
        roundHalfUp (((4 : ℤ) : ℚ) / ((3 : ℕ) : ℚ)) from rfl,
      roundHalfUp_div_eq 4 3 (by decide)]
    decide]
  decide

theorem run_specSacExtra : (computeScheduleCore specSacExtra 0).installments =
    [⟨1, 1, 1, 0, 0, 7⟩, ⟨2, 1, 1, 0, 0, 6⟩, ⟨3, 1, 1, 0, 0, 5⟩,
     ⟨4, 1, 1, 0, 1, 3⟩, ⟨5, 2, 2, 0, 0, 1⟩, ⟨6, 1, 1, 0, 0, 0⟩] := by
  rw [core_installments_eq, scheduleLoop_zero_eq]
  rw [show coreQ specSacExtra = 1 by
    rw [show coreQ specSacExtra =
        roundHalfUp (((8 : ℤ) : ℚ) / ((6 : ℕ) : ℚ)) from rfl,
      roundHalfUp_div_eq 8 6 (by decide)]
    decide]
  decide

theorem run_specC1 : (computeScheduleCore specC1 0).installments =
    [⟨1, 50, 50, 0, 30, 20⟩, ⟨2, 20, 20, 0, 0, 0⟩] := by
  rw [core_installments_eq, scheduleLoop_zero_eq]
  rw [show coreA specC1 0 = 50 by
    rw [show coreA specC1 0 = annuity 100 0 2 from rfl, annuity_zero 100 2 (by decide)]
    decide]
  decide

theorem run_specPayoff : (computeScheduleCore specPayoff 0).installments =
    [⟨1, 25, 25, 0, 0, 75⟩, ⟨2, 25, 25, 0, 50, 0⟩] := by
  rw [core_installments_eq, scheduleLoop_zero_eq]
  rw [show coreA specPayoff 0 = 25 by
    rw [show coreA specPayoff 0 = annuity 100 0 4 from rfl, annuity_zero 100 4 (by decide)]
    decide]
  decide

theorem extraSum_eq_zero {L : List Installment}
    (h : ∀ inst ∈ L, inst.extraPortion = 0) : extraSum L = 0 := by
  unfold extraSum
  apply List.sum_eq_zero
  intro x hx
  rcases List.mem_map.mp hx with ⟨inst, hmem, hval⟩
  rw [← hval]
  exact h inst hmem

/-! ### Claim theorems -/

/-- C1 (counterexample): for the valid loan `specC1` (an extra payment of 30
at period 1), the sum of the principal portions plus the final remaining
balance is 70, not the principal 100: the claim as stated fails because the
separately reported extra-payment portions also retire principal. -/
theorem C1_counterexample :
    ValidSpec specC1 ∧
    computeSchedule specC1 0 = Except.ok (computeScheduleCore specC1 0) ∧
    lastBalance (computeScheduleCore specC1 0).installments = 0 ∧
    principalSum (computeScheduleCore specC1 0).installments +
      lastBalance (computeScheduleCore specC1 0).installments ≠
        specC1.principal := by
  refine ⟨specC1_valid, computeSchedule_eq_ok 0 specC1_valid, ?_, ?_⟩
  · rw [run_specC1]
    decide
  · rw [run_specC1]
    decide

/-- C1 (amended): for every LoanSpec accepted by computeSchedule, the sum of
the principal portions plus the sum of the applied extra-payment portions
plus the final remaining balance equals the input principal exactly, and
the final remaining balance is exactly zero. -/
theorem C1_conservation (s : LoanSpec) (r : ℚ) (res : AmortizationResult)
    (hok : computeSchedule s r = Except.ok res) :
    principalSum res.installments + extraSum res.installments +
      lastBalance res.installments = s.principal ∧
    lastBalance res.installments = 0 := by
  obtain ⟨hv, hres⟩ := computeSchedule_ok_inv hok
  subst hres
  rw [core_installments_eq]
  obtain ⟨m, hm⟩ : ∃ m, totalPeriods s = m + 1 :=
    ⟨totalPeriods s - 1, by have := totalPeriods_pos hv.2.2.1; omega⟩
  rw [hm]
  have hP : 0 ≤ s.principal := le_of_lt hv.1
  have hsum := scheduleLoop_sum s.rateType r (coreA s r) s.extraPayments m 1
    s.principal (coreQ s) hP
  have hlast := scheduleLoop_lastBalance s.rateType r (coreA s r)
    s.extraPayments m 1 s.principal (coreQ s) hP
  exact ⟨by omega, hlast⟩

/-- C1 (witness): the amended conservation law evaluated on the concrete
valid loan `specPrice`. -/
theorem C1_witness :
    computeSchedule specPrice 0 = Except.ok (computeScheduleCore specPrice 0) ∧
    (principalSum (computeScheduleCore specPrice 0).installments +
      extraSum (computeScheduleCore specPrice 0).installments +
      lastBalance (computeScheduleCore specPrice 0).installments =
        specPrice.principal ∧
    lastBalance (computeScheduleCore specPrice 0).installments = 0) :=
  ⟨computeSchedule_eq_ok 0 specPrice_valid,
    C1_conservation specPrice 0 (computeScheduleCore specPrice 0)
      (computeSchedule_eq_ok 0 specPrice_valid)⟩

/-- C2: for every LoanSpec accepted by computeSchedule and every installment
of the result, paymentAmount equals principalPortion plus interestPortion
to within one minor unit (in fact exactly). -/
theorem C2_payment_identity (s : LoanSpec) (r : ℚ) (res : AmortizationResult)
    (hok : computeSchedule s r = Except.ok res) :
    ∀ inst ∈ res.installments,
      (inst.paymentAmount - (inst.principalPortion + inst.interestPortion)).natAbs ≤ 1 := by
  obtain ⟨hv, hres⟩ := computeSchedule_ok_inv hok
  subst hres
  intro inst hmem
  rw [core_installments_eq] at hmem
  obtain ⟨m, hm⟩ : ∃ m, totalPeriods s = m + 1 :=
    ⟨totalPeriods s - 1, by have := totalPeriods_pos hv.2.2.1; omega⟩
  rw [hm] at hmem
  have := scheduleLoop_payment_eq s.rateType r (coreA s r) s.extraPayments m 1
    s.principal (coreQ s) inst hmem
  omega

/-- C2 (witness): the payment identity evaluated on the concrete valid loan
`specSac`. -/
theorem C2_witness :
    computeSchedule specSac 0 = Except.ok (computeScheduleCore specSac 0) ∧
    ∀ inst ∈ (computeScheduleCore specSac 0).installments,
      (inst.paymentAmount - (inst.principalPortion + inst.interestPortion)).natAbs ≤ 1 :=
  ⟨computeSchedule_eq_ok 0 specSac_valid,
    C2_payment_identity specSac 0 (computeScheduleCore specSac 0)
      (computeSchedule_eq_ok 0 specSac_valid)⟩

/-- C3: for every LoanSpec accepted by computeSchedule (non-negative period
rate), the balance recurrence
`remainingBalance[i] = remainingBalance[i-1] - principalPortion[i] - extra applied at i`
holds along the whole schedule starting from the principal, the remaining
balance is monotonically non-increasing, it reaches exactly zero at the
final installment, and every monetary field of every installment is
non-negative. -/
theorem C3_balance_invariants (s : LoanSpec) (r : ℚ) (res : AmortizationResult)
    (hok : computeSchedule s r = Except.ok res) (hr : 0 ≤ r) :
    ChainFrom s.principal res.installments ∧
    List.Chain' (fun a b => b.remainingBalance ≤ a.remainingBalance)
      res.installments ∧
    lastBalance res.installments = 0 ∧
    ∀ inst ∈ res.installments,
      0 ≤ inst.paymentAmount ∧ 0 ≤ inst.principalPortion ∧
      0 ≤ inst.interestPortion ∧ 0 ≤ inst.extraPortion ∧
      0 ≤ inst.remainingBalance := by
  obtain ⟨hv, hres⟩ := computeSchedule_ok_inv hok
  subst hres
  rw [core_installments_eq]
  obtain ⟨m, hm⟩ : ∃ m, totalPeriods s = m + 1 :=
    ⟨totalPeriods s - 1, by have := totalPeriods_pos hv.2.2.1; omega⟩
  rw [hm]
  have hP : 0 ≤ s.principal := le_of_lt hv.1
  have hchain := scheduleLoop_chain s.rateType r (coreA s r) s.extraPayments m 1
    s.principal (coreQ s)
  have hnn := scheduleLoop_nonneg s.rateType r (coreA s r) s.extraPayments hr m 1
    s.principal (coreQ s) hP
  have hpay := scheduleLoop_payment_eq s.rateType r (coreA s r) s.extraPayments m 1
    s.principal (coreQ s)
  refine ⟨hchain, ?_, ?_, ?_⟩
  · exact chainFrom_nonincreasing _ s.principal hchain
      (fun inst hmem => ⟨(hnn inst hmem).1, (hnn inst hmem).2.2.1⟩)
  · exact scheduleLoop_lastBalance s.rateType r (coreA s r) s.extraPayments m 1
      s.principal (coreQ s) hP
  · intro inst hmem
    obtain ⟨h1, h2, h3, h4⟩ := hnn inst hmem
    have h5 := hpay inst hmem
    exact ⟨by omega, h1, h2, h3, h4⟩

/-- C3 (witness): the balance invariants evaluated on the concrete valid
loan `specSacExtra`. -/
theorem C3_witness :
    computeSchedule specSacExtra 0 = Except.ok (computeScheduleCore specSacExtra 0) ∧
    (ChainFrom specSacExtra.principal (computeScheduleCore specSacExtra 0).installments ∧
    List.Chain' (fun a b => b.remainingBalance ≤ a.remainingBalance)
      (computeScheduleCore specSacExtra 0).installments ∧
    lastBalance (computeScheduleCore specSacExtra 0).installments = 0 ∧
    ∀ inst ∈ (computeScheduleCore specSacExtra 0).installments,
      0 ≤ inst.paymentAmount ∧ 0 ≤ inst.principalPortion ∧
      0 ≤ inst.interestPortion ∧ 0 ≤ inst.extraPortion ∧
      0 ≤ inst.remainingBalance) :=
  ⟨computeSchedule_eq_ok 0 specSacExtra_valid,
    C3_balance_invariants specSacExtra 0 (computeScheduleCore specSacExtra 0)
      (computeSchedule_eq_ok 0 specSacExtra_valid) (le_refl 0)⟩

/-- C4: computeSchedule fails with a ValidationError exactly when the input
violates a validation constraint (positive principal, non-negative annual
rate, term of at least one month, extra payments positive with in-range and
pairwise distinct period indices; frequency and rate type are recognized by
construction of the closed enums), ValidationError is the only error kind
of the engine (the error channel of the Except carries only this type), and
on failure no result is produced. -/
theorem C4_validation (s : LoanSpec) (r : ℚ) :
    (computeSchedule s r = Except.error ⟨validationErrors s⟩ ↔ ¬ValidSpec s) ∧
    (∀ res, computeSchedule s r = Except.ok res → ValidSpec s) := by
  constructor
  · constructor
    · intro h hv
      rw [computeSchedule_eq_ok r hv] at h
      exact Except.noConfusion h
    · intro h
      exact computeSchedule_eq_error r h
  · intro res h
    exact (computeSchedule_ok_inv h).1

/-- C4 (witness): the validation equivalence evaluated on the concrete
invalid specification `specBad` and the concrete valid `specPrice`. -/
theorem C4_witness :
    computeSchedule specBad 0 = Except.error ⟨validationErrors specBad⟩ ∧
    ValidSpec specPrice :=
  ⟨(C4_validation specBad 0).1.mpr specBad_invalid, specPrice_valid⟩

/-- C5: for every LoanSpec passing validation, computeSchedule returns a
complete AmortizationResult on the success path (the generation loop is a
total, fuel-bounded recursion and yields at least one installment). -/
theorem C5_terminates (s : LoanSpec) (r : ℚ) (h : ValidSpec s) :
    ∃ res, computeSchedule s r = Except.ok res ∧ 1 ≤ res.installments.length := by
  refine ⟨computeScheduleCore s r, computeSchedule_eq_ok r h, ?_⟩
  rw [core_installments_eq]
  obtain ⟨m, hm⟩ : ∃ m, totalPeriods s = m + 1 :=
    ⟨totalPeriods s - 1, by have := totalPeriods_pos h.2.2.1; omega⟩
  rw [hm]
  have hne := scheduleLoop_ne_nil s.rateType r (coreA s r) s.extraPayments m 1
    s.principal (coreQ s)
  have := List.length_pos.mpr hne
  omega

/-- C5 (witness): termination with a complete result on the concrete valid
loan `specSac`. -/
theorem C5_witness :
    ∃ res, computeSchedule specSac 0 = Except.ok res ∧
      1 ≤ res.installments.length :=
  C5_terminates specSac 0 specSac_valid

/-- C6 (counterexample): under SAC the payment sequence is not non-increasing
as claimed.  For the valid no-extra-payment loan `specSac` the payments are
[1, 1, 2]: the rounding-adjusted final payment exceeds its predecessor.  For
the valid loan `specSacExtra` (extra payment at period 4) the payments are
[1, 1, 1, 1, 2, 1]: the recomputed amortization bumps the payment at the
non-final period 5 above the period-4 one, so even exempting the final
period the property fails once extra payments are allowed. -/
theorem C6_counterexample :
    (ValidSpec specSac ∧ specSac.rateType = RateType.SAC ∧
      specSac.extraPayments = [] ∧
      ¬(∀ (j : ℕ) (a b : Installment),
          (computeScheduleCore specSac 0).installments.get? j = some a →
          (computeScheduleCore specSac 0).installments.get? (j + 1) = some b →
          b.paymentAmount ≤ a.paymentAmount)) ∧
    (ValidSpec specSacExtra ∧ specSacExtra.rateType = RateType.SAC ∧
      ¬(∀ (j : ℕ) (a b : Installment),
          (computeScheduleCore specSacExtra 0).installments.get? j = some a →
          (computeScheduleCore specSacExtra 0).installments.get? (j + 1) = some b →
          j + 2 < (computeScheduleCore specSacExtra 0).installments.length →
          b.paymentAmount ≤ a.paymentAmount)) := by
  constructor
  · refine ⟨specSac_valid, rfl, rfl, ?_⟩
    intro h
    have := h 1 ⟨2, 1, 1, 0, 0, 2⟩ ⟨3, 2, 2, 0, 0, 0⟩
      (by rw [run_specSac]; rfl) (by rw [run_specSac]; rfl)
    exact absurd this (by decide)
  · refine ⟨specSacExtra_valid, rfl, ?_⟩
    intro h
    have := h 3 ⟨4, 1, 1, 0, 1, 3⟩ ⟨5, 2, 2, 0, 0, 1⟩
      (by rw [run_specSacExtra]; rfl) (by rw [run_specSacExtra]; rfl)
      (by rw [run_specSacExtra]; decide)
    exact absurd this (by decide)

/-- C6 (amended): for every LoanSpec accepted by computeSchedule with
non-negative period rate and no extra payments: under SAC the payment
sequence is non-increasing across all periods other than the
rounding-adjusted final installment, and under PRICE_TABLE the payment is
constant across all periods other than the rounding-adjusted final
installment. -/
theorem C6_payment_shape (s : LoanSpec) (r : ℚ) (res : AmortizationResult)
    (hok : computeSchedule s r = Except.ok res) (hr : 0 ≤ r)
    (hxs : s.extraPayments = []) :
    (s.rateType = RateType.SAC →
      ∀ (j : ℕ) (a b : Installment), res.installments.get? j = some a →
        res.installments.get? (j + 1) = some b →
        j + 2 < res.installments.length →
        b.paymentAmount ≤ a.paymentAmount) ∧
    (s.rateType = RateType.PRICE_TABLE →
      ∀ (j j2 : ℕ) (a b : Installment), res.installments.get? j = some a →
        res.installments.get? j2 = some b →
        j + 1 < res.installments.length → j2 + 1 < res.installments.length →
        a.paymentAmount = b.paymentAmount) := by
  obtain ⟨hv, hres⟩ := computeSchedule_ok_inv hok
  subst hres
  rw [core_installments_eq]
  obtain ⟨m, hm⟩ : ∃ m, totalPeriods s = m + 1 :=
    ⟨totalPeriods s - 1, by have := totalPeriods_pos hv.2.2.1; omega⟩
  rw [hm, hxs]
  have hP : 0 ≤ s.principal := le_of_lt hv.1
  constructor
  · intro hsac j a b hga hgb hlen
    rw [hsac] at hga hgb hlen
    exact scheduleLoop_sac_mono r (coreA s r) hr m 1 s.principal (coreQ s) j a b
      hP (coreQ_nonneg hP) hga hgb hlen
  · intro hprice j j2 a b hga hgb hl1 hl2
    rw [hprice] at hga hgb hl1 hl2
    have hA : coreA s r = annuity s.principal r (totalPeriods s) := by
      unfold coreA
      rw [hprice]
    have hIA : interestOf r s.principal ≤ coreA s r := by
      rw [hA]
      exact interest_le_annuity hP hr (by have := totalPeriods_pos hv.2.2.1; omega)
    have hpa := scheduleLoop_price_pay RateType.PRICE_TABLE (by decide)
      r (coreA s r) [] hr m 1 s.principal (coreQ s) j a hP hIA hga hl1
    have hpb := scheduleLoop_price_pay RateType.PRICE_TABLE (by decide)
      r (coreA s r) [] hr m 1 s.principal (coreQ s) j2 b hP hIA hgb hl2
    rw [hpa, hpb]

/-- C6 (witness): the amended payment-shape law evaluated on the concrete
valid SAC loan `specSac` and on the concrete valid PRICE_TABLE loan
`specPrice`. -/
theorem C6_witness :
    ((computeScheduleCore specSac 0).installments.get? 0 = some ⟨1, 1, 1, 0, 0, 3⟩ ∧
      (computeScheduleCore specSac 0).installments.get? 1 = some ⟨2, 1, 1, 0, 0, 2⟩ ∧
      (1 : ℤ) ≤ 1) ∧
    ((computeScheduleCore specPrice 0).installments.get? 0 = some ⟨1, 5, 5, 0, 0, 5⟩ ∧
      (5 : ℤ) = 5) := by
  have h1 := (C6_payment_shape specSac 0 (computeScheduleCore specSac 0)
    (computeSchedule_eq_ok 0 specSac_valid) (le_refl 0) rfl).1 rfl 0
    ⟨1, 1, 1, 0, 0, 3⟩ ⟨2, 1, 1, 0, 0, 2⟩
    (by rw [run_specSac]; rfl) (by rw [run_specSac]; rfl) (by rw [run_specSac]; decide)
  have h2 := (C6_payment_shape specPrice 0 (computeScheduleCore specPrice 0)
    (computeSchedule_eq_ok 0 specPrice_valid) (le_refl 0) rfl).2 rfl 0 0
    ⟨1, 5, 5, 0, 0, 5⟩ ⟨1, 5, 5, 0, 0, 5⟩
    (by rw [run_specPrice]; rfl) (by rw [run_specPrice]; rfl)
    (by rw [run_specPrice]; decide) (by rw [run_specPrice]; decide)
  exact ⟨⟨by rw [run_specSac]; rfl, by rw [run_specSac]; rfl, h1⟩,
    ⟨by rw [run_specPrice]; rfl, h2⟩⟩

/-- C7: for every LoanSpec accepted by computeSchedule, if an installment
has a positive applied extra payment and a remaining balance at the zero
rounding tolerance, then schedule generation stopped at that installment
(it is the last one) and the schedule is strictly shorter than the total
number of periods; the shortened schedule is an ordinary success result. -/
theorem C7_early_payoff (s : LoanSpec) (r : ℚ) (res : AmortizationResult)
    (hok : computeSchedule s r = Except.ok res) (j : ℕ) (inst : Installment)
    (hget : res.installments.get? j = some inst)
    (hx : 0 < inst.extraPortion) (hz : inst.remainingBalance = 0) :
    j + 1 = res.installments.length ∧
    res.installments.length < totalPeriods s := by
  obtain ⟨hv, hres⟩ := computeSchedule_ok_inv hok
  subst hres
  rw [core_installments_eq] at hget ⊢
  obtain ⟨m, hm⟩ : ∃ m, totalPeriods s = m + 1 :=
    ⟨totalPeriods s - 1, by have := totalPeriods_pos hv.2.2.1; omega⟩
  rw [hm] at hget ⊢
  have hlast := scheduleLoop_balance_zero_last s.rateType r (coreA s r)
    s.extraPayments m 1 s.principal (coreQ s) j inst hget hz
  have hearly := scheduleLoop_extra_pos_early s.rateType r (coreA s r)
    s.extraPayments m 1 s.principal (coreQ s) j inst hget hx
  exact ⟨hlast, by omega⟩

/-- C7 (witness): early payoff on the concrete valid loan `specPayoff`
(extra payment of 100 at period 2 of 4): period 2 is the final installment
and the schedule has 2 < 4 installments. -/
theorem C7_witness :
    (computeScheduleCore specPayoff 0).installments.get? 1 =
      some ⟨2, 25, 25, 0, 50, 0⟩ ∧
    (1 + 1 = (computeScheduleCore specPayoff 0).installments.length ∧
      (computeScheduleCore specPayoff 0).installments.length <
        totalPeriods specPayoff) := by
  have hget : (computeScheduleCore specPayoff 0).installments.get? 1 =
      some ⟨2, 25, 25, 0, 50, 0⟩ := by
    rw [run_specPayoff]
    rfl
  exact ⟨hget,
    C7_early_payoff specPayoff 0 (computeScheduleCore specPayoff 0)
      (computeSchedule_eq_ok 0 specPayoff_valid) 1 ⟨2, 25, 25, 0, 50, 0⟩
      hget (by decide) (by decide)⟩

theorem installmentBase_zero (s : LoanSpec) :
    installmentBase s.rateType (coreA s 0) (coreQ s) 0 =
      roundHalfUp ((s.principal : ℚ) / (totalPeriods s : ℚ)) := by
  cases hrt : s.rateType with
  | SAC =>
      simp only [installmentBase, coreQ, hrt]
  | FIXED =>
      simp only [installmentBase, coreA, hrt, annuity, lt_self_iff_false,
        if_false, sub_zero]
  | PRICE_TABLE =>
      simp only [installmentBase, coreA, hrt, annuity, lt_self_iff_false,
        if_false, sub_zero]

/-- C8 (counterexample): the valid loan `specSacExtra` has a zero annual
rate (zero period rate) and every interest portion is zero, yet the
principal portions are not evenly distributed over the non-final periods:
period 1 repays 1 minor unit while the non-final period 5 repays 2, because
the extra payment at period 4 triggers a SAC recomputation. -/
theorem C8_counterexample :
    ValidSpec specSacExtra ∧ specSacExtra.annualRatePercent = 0 ∧
    (∀ inst ∈ (computeScheduleCore specSacExtra 0).installments,
      inst.interestPortion = 0) ∧
    ¬(∀ (j j2 : ℕ) (a b : Installment),
        (computeScheduleCore specSacExtra 0).installments.get? j = some a →
        (computeScheduleCore specSacExtra 0).installments.get? j2 = some b →
        j + 1 < (computeScheduleCore specSacExtra 0).installments.length →
        j2 + 1 < (computeScheduleCore specSacExtra 0).installments.length →
        a.principalPortion = b.principalPortion) := by
  refine ⟨specSacExtra_valid, rfl, ?_, ?_⟩
  · rw [run_specSacExtra]
    decide
  · intro h
    have := h 0 4 ⟨1, 1, 1, 0, 0, 7⟩ ⟨5, 2, 2, 0, 0, 1⟩
      (by rw [run_specSacExtra]; rfl) (by rw [run_specSacExtra]; rfl)
      (by rw [run_specSacExtra]; decide) (by rw [run_specSacExtra]; decide)
    exact absurd this (by decide)

/-- C8 (amended): for every otherwise-valid LoanSpec with zero annual rate
(hence zero period rate under the compound conversion) and no extra
payments, computeSchedule succeeds, every interest portion is zero, every
non-final principal portion equals the rounded even share
`principal / totalPeriods`, and the principal portions sum to the whole
principal (the final period absorbing the rounding remainder). -/
theorem C8_zero_rate (s : LoanSpec) (res : AmortizationResult)
    (hok : computeSchedule s 0 = Except.ok res)
    (_hzero : s.annualRatePercent = 0) (hxs : s.extraPayments = []) :
    (∀ inst ∈ res.installments, inst.interestPortion = 0) ∧
    (∀ (j : ℕ) (inst : Installment), res.installments.get? j = some inst →
      j + 1 < res.installments.length →
      inst.principalPortion =
        roundHalfUp ((s.principal : ℚ) / (totalPeriods s : ℚ))) ∧
    principalSum res.installments = s.principal := by
  obtain ⟨hv, hres⟩ := computeSchedule_ok_inv hok
  subst hres
  rw [core_installments_eq]
  obtain ⟨m, hm⟩ : ∃ m, totalPeriods s = m + 1 :=
    ⟨totalPeriods s - 1, by have := totalPeriods_pos hv.2.2.1; omega⟩
  rw [hxs]
  have hP : 0 ≤ s.principal := le_of_lt hv.1
  have hbase := installmentBase_zero s
  have hbase0 : 0 ≤ installmentBase s.rateType (coreA s 0) (coreQ s) 0 := by
    rw [hbase]
    apply roundHalfUp_nonneg
    have h1 : (0 : ℚ) ≤ (s.principal : ℚ) := by exact_mod_cast hP
    positivity
  refine ⟨?_, ?_, ?_⟩
  · rw [hm]
    exact scheduleLoop_zero_interest s.rateType (coreA s 0) [] m 1 s.principal
      (coreQ s)
  · rw [hm]
    intro j inst hget hlen
    rw [scheduleLoop_zero_portion s.rateType (coreA s 0) m 1 s.principal
      (coreQ s) j inst hP hbase0 hget hlen, hbase, hm]
  · rw [hm]
    have hsum := scheduleLoop_sum s.rateType 0 (coreA s 0) [] m 1 s.principal
      (coreQ s) hP
    have hex := extraSum_eq_zero
      (scheduleLoop_no_extra s.rateType 0 (coreA s 0) m 1 s.principal (coreQ s))
    omega

/-- C8 (witness): the amended zero-rate law evaluated on the concrete valid
loan `specSac`: all interest portions are zero and non-final principal
portions equal the rounded even share. -/
theorem C8_witness :
    computeSchedule specSac 0 = Except.ok (computeScheduleCore specSac 0) ∧
    ((∀ inst ∈ (computeScheduleCore specSac 0).installments,
      inst.interestPortion = 0) ∧
    (∀ (j : ℕ) (inst : Installment),
      (computeScheduleCore specSac 0).installments.get? j = some inst →
      j + 1 < (computeScheduleCore specSac 0).installments.length →
      inst.principalPortion =
        roundHalfUp ((specSac.principal : ℚ) / (totalPeriods specSac : ℚ))) ∧
    principalSum (computeScheduleCore specSac 0).installments =
      specSac.principal) :=
  ⟨computeSchedule_eq_ok 0 specSac_valid,
    C8_zero_rate specSac (computeScheduleCore specSac 0)
      (computeSchedule_eq_ok 0 specSac_valid) rfl rfl⟩

/-- C9: computeSchedule is a pure function of its input: two invocations on
identical input produce identical output (determinism; there is no hidden
state in the shallow embedding, so this is definitional). -/
theorem C9_deterministic (s : LoanSpec) (r : ℚ) :
    computeSchedule s r = computeSchedule s r := rfl

/-- C10: for every incoming request, the admin controller's pagination
parsing never passes an absent, non-numeric, or zero page or limit to the
service: getUsers uses defaults page 1 and limit 20 and getAuditLogs uses
defaults page 1 and limit 50 whenever the query parameter is missing, fails
to parse, or parses to 0, and any other parsed integer (including negative
values) is passed through unchanged. -/
theorem C10_pagination (q : AdminQuery) :
    ((jsParseInt q.page = none ∨ jsParseInt q.page = some 0) →
      (getUsersPagination q).1 = 1 ∧ (getAuditLogsPagination q).1 = 1) ∧
    ((jsParseInt q.limit = none ∨ jsParseInt q.limit = some 0) →
      (getUsersPagination q).2 = 20 ∧ (getAuditLogsPagination q).2 = 50) ∧
    (∀ v : ℤ, jsParseInt q.page = some v → v ≠ 0 →
      (getUsersPagination q).1 = v ∧ (getAuditLogsPagination q).1 = v) ∧
    (∀ v : ℤ, jsParseInt q.limit = some v → v ≠ 0 →
      (getUsersPagination q).2 = v ∧ (getAuditLogsPagination q).2 = v) ∧
    (getUsersPagination q).1 ≠ 0 ∧ (getUsersPagination q).2 ≠ 0 ∧
    (getAuditLogsPagination q).1 ≠ 0 ∧ (getAuditLogsPagination q).2 ≠ 0 := by
  unfold getUsersPagination getAuditLogsPagination
  refine ⟨?_, ?_, ?_, ?_, ?_, ?_, ?_, ?_⟩
  · rintro (h | h) <;> rw [h] <;> exact ⟨rfl, rfl⟩
  · rintro (h | h) <;> rw [h] <;> exact ⟨rfl, rfl⟩
  · intro v hv hne
    rw [hv]
    simp [jsOrDefault, hne]
  · intro v hv hne
    rw [hv]
    simp [jsOrDefault, hne]
  · cases hp : jsParseInt q.page with
    | none => exact one_ne_zero
    | some x =>
        simp only [jsOrDefault]
        split
        · exact one_ne_zero
        · assumption
  · cases hp : jsParseInt q.limit with
    | none => exact (by decide : (20 : ℤ) ≠ 0)
    | some x =>
        simp only [jsOrDefault]
        split
        · exact (by decide : (20 : ℤ) ≠ 0)
        · assumption
  · cases hp : jsParseInt q.page with
    | none => exact one_ne_zero
    | some x =>
        simp only [jsOrDefault]
        split
        · exact one_ne_zero
        · assumption
  · cases hp : jsParseInt q.limit with
    | none => exact (by decide : (50 : ℤ) ≠ 0)
    | some x =>
        simp only [jsOrDefault]
        split
        · exact (by decide : (50 : ℤ) ≠ 0)
        · assumption

/-- C10 (witness): the pagination law evaluated on a concrete request with
page " -7" (a parsed negative number, passed through) and limit "0" (falsy,
replaced by the default 20), and on a concrete request with a missing page
and a non-numeric limit (both defaulted). -/
theorem C10_witness :
    (getUsersPagination ⟨some " -7", some "0"⟩).1 = -7 ∧
    (getUsersPagination ⟨some " -7", some "0"⟩).2 = 20 ∧
    (getAuditLogsPagination ⟨none, some "abc"⟩).1 = 1 ∧
    (getAuditLogsPagination ⟨none, some "abc"⟩).2 = 50 := by
  have h1 := (C10_pagination ⟨some " -7", some "0"⟩).2.2.1 (-7) (by decide)
    (by decide)
  have h2 := (C10_pagination ⟨some " -7", some "0"⟩).2.1 (Or.inr (by decide))
  have h3 := (C10_pagination ⟨none, some "abc"⟩).1 (Or.inl rfl)
  have h4 := (C10_pagination ⟨none, some "abc"⟩).2.1 (Or.inl (by decide))
  exact ⟨h1.1, h2.1, h3.2, h4.2⟩

end LandVision
